import Mathlib

/-!
# Verification of the skynet-kernel core against its specification

This file gives a shallow embedding, in Lean 4, of the core data model and
operations of the skynet-kernel repository (TypeScript), and proves or refutes
the frozen claims about it.

Modelling conventions:
* A JavaScript `Uint8Array` is modelled as a `List Nat` of byte values; the
  `TypedArray.prototype.set` method is modelled by `uset`, which returns `none`
  exactly when JavaScript would throw a `RangeError` (out-of-bounds write).
* A JavaScript string is modelled as a `List Char`; `TextEncoder.encode` is
  modelled by `utf8Encode` (standard UTF-8, which is what `TextEncoder` does).
* Functions that can throw at runtime return `Option` (with `none` for a
  thrown exception) wrapped around their ordinary result; functions following
  the repository's `[value, err]` convention return `Except String`.
* Cryptographic primitives (sha512, blake2b, ed25519) are consumed by the
  repository as black boxes; they are taken here as parameters, with the
  documented contract of the signature scheme packaged in `Ed25519Scheme`.
-/

namespace Skynet

/-- Byte strings: each element is a byte value (always < 256 when produced by
the embedded code). -/
abbrev Bytes := List Nat

/-- Model of `TypedArray.prototype.set(src, off)` on a `Uint8Array` of fixed
length: overwrites `src.length` bytes of `target` starting at `off`.  Returns
`none` exactly when JavaScript throws a `RangeError`, i.e. when the source does
not fit into the target at the given offset. -/
def uset (target src : Bytes) (off : Nat) : Option Bytes :=
  if off + src.length ≤ target.length then
    some (target.take off ++ src ++ target.drop (off + src.length))
  else none

/-- Little-endian 8-byte encoding of a natural number (the value written by
`encodeU64` on an in-range input). -/
def u64le (n : Nat) : Bytes :=
  (List.range 8).map (fun i => n / 256 ^ i % 256)

/-- Modelled from the spec: `encodeU64` (the file `encoding.ts` of libskynet is
not part of the provided sources).  Encodes `0 ≤ n < 2^64` as 8 bytes
little-endian and fails with a `RangeError`-style error value if `n` is
negative or at least `2^64`. -/
def encodeU64 (n : Int) : Except String Bytes :=
  if n < 0 ∨ (2 : Int) ^ 64 ≤ n then Except.error "number is too large"
  else Except.ok (u64le n.toNat)

/-- Modelled from the spec: `encodePrefixedBytes b = encodeU64 (len b) ++ b`
(the file `encoding.ts` of libskynet is not part of the provided sources). -/
def encodePrefixedBytes (b : Bytes) : Except String Bytes :=
  match encodeU64 (b.length : Int) with
  | Except.error e => Except.error e
  | Except.ok lenBytes => Except.ok (lenBytes ++ b)

/-- Modelled from the spec: `addContextToErr` (the file `err.ts` is not part of
the provided sources) annotates an error with a short human-readable context
without losing the original text. -/
def addContextToErr (e ctx : String) : String := ctx ++ ": " ++ e

/-- An ed25519 keypair as used by the repository: 32-byte public key, 64-byte
secret key (sizes are enforced by the primitive, not re-checked here). -/
structure Ed25519Keypair where
  publicKey : Bytes
  secretKey : Bytes
deriving DecidableEq, Repr

/-- The ed25519 primitive consumed by the repository as a black box, together
with its documented contract: signing with a secret key produced by
`keypairFromEntropy` from 32 bytes of entropy succeeds, and `verify` accepts a
signature produced by `sign` under the matching public key. -/
structure Ed25519Scheme where
  keypairFromEntropy : Bytes → Except String Ed25519Keypair
  sign : Bytes → Bytes → Except String Bytes
  verify : Bytes → Bytes → Bytes → Bool
  sign_total : ∀ entropy kp message, entropy.length = 32 →
    keypairFromEntropy entropy = Except.ok kp →
    ∃ sig, sign message kp.secretKey = Except.ok sig
  verify_sign : ∀ entropy kp message sig, entropy.length = 32 →
    keypairFromEntropy entropy = Except.ok kp →
    sign message kp.secretKey = Except.ok sig →
    verify message sig kp.publicKey = true

/-- A concrete instance of the signature-scheme contract, used to evaluate the
theorems on closed inputs: the "signature" is the secret key followed by the
message, and verification checks that shape against the public key. -/
def plainScheme : Ed25519Scheme where
  keypairFromEntropy e := Except.ok ⟨e, e⟩
  sign m sk := Except.ok (sk ++ m)
  verify m s pk := decide (s = pk ++ m)
  sign_total := by
    intro e kp m _ _
    exact ⟨kp.secretKey ++ m, rfl⟩
  verify_sign := by
    intro e kp m s _ hk hs
    simp only [Except.ok.injEq] at hk hs
    subst hk
    subst hs
    simp

/-! ## Registry entry signatures (src/libs/libskynet/src/registry.ts) -/

/-- The signed message built identically by `computeRegistrySignature`
(`dataToSign`) and `verifyRegistrySignature` (`dataToVerify`):
a `Uint8Array` of length `32 + 8 + data.length + 8` receiving `dataKey` at
offset 0, the length-prefixed data at offset 32, and the encoded revision at
offset `32 + 8 + data.length`.  `none` models the `RangeError` thrown by
`TypedArray.set` when `dataKey` does not fit. -/
def registrySignedMessage (dataKey data encodedData encodedRevision : Bytes) :
    Option Bytes :=
  match uset (List.replicate (32 + 8 + data.length + 8) 0) dataKey 0 with
  | none => none
  | some t1 =>
    match uset t1 encodedData 32 with
    | none => none
    | some t2 => uset t2 encodedRevision (32 + 8 + data.length)

/-- Embedding of `computeRegistrySignature(secretKey, dataKey, data, revision)`
from src/libs/libskynet/src/registry.ts.  The outer `Option` models a thrown
exception; the inner `Except` is the `[signature, err]` return convention. -/
def computeRegistrySignature (S : Ed25519Scheme) (blake2b : Bytes → Bytes)
    (secretKey dataKey data : Bytes) (revision : Int) :
    Option (Except String Bytes) :=
  if 86 < data.length then
    some (Except.error "registry data must be at most 86 bytes")
  else
    match encodePrefixedBytes data with
    | Except.error e =>
      some (Except.error (addContextToErr e "unable to encode provided registry data"))
    | Except.ok encodedData =>
      match encodeU64 revision with
      | Except.error e =>
        some (Except.error (addContextToErr e "unable to encode the revision number"))
      | Except.ok encodedRevision =>
        match registrySignedMessage dataKey data encodedData encodedRevision with
        | none => none
        | some dataToSign =>
          match S.sign (blake2b dataToSign) secretKey with
          | Except.error e =>
            some (Except.error (addContextToErr e "unable to sign registry entry"))
          | Except.ok sig => some (Except.ok sig)

/-- Embedding of `verifyRegistrySignature(pubkey, datakey, data, revision, sig)`
from src/libs/libskynet/src/registry.ts.  The outer `Option` models a thrown
exception (`none` = the function threw instead of returning a boolean). -/
def verifyRegistrySignature (S : Ed25519Scheme) (blake2b : Bytes → Bytes)
    (pubkey datakey data : Bytes) (revision : Int) (sig : Bytes) :
    Option Bool :=
  match encodePrefixedBytes data with
  | Except.error _ => some false
  | Except.ok encodedData =>
    match encodeU64 revision with
    | Except.error _ => some false
    | Except.ok encodedRevision =>
      match registrySignedMessage datakey data encodedData encodedRevision with
      | none => none
      | some dataToVerify => some (S.verify (blake2b dataToVerify) sig pubkey)

/-- The preimage both sides hash, as described by the spec:
`datakey ++ encodePrefixedBytes(data) ++ encodeU64(revision)`. -/
def registryEntryPreimage (datakey data : Bytes) (revision : Int) : Bytes :=
  datakey ++ (u64le data.length ++ data) ++ u64le revision.toNat

theorem u64le_length (n : Nat) : (u64le n).length = 8 := by
  simp [u64le]

theorem uset_exact (a b c src : Bytes) (h : src.length = b.length) :
    uset (a ++ b ++ c) src a.length = some (a ++ src ++ c) := by
  have hlen : a.length + src.length ≤ (a ++ b ++ c).length := by
    simp only [List.length_append]
    omega
  have ht : (a ++ b ++ c).take a.length = a := by
    rw [List.append_assoc]
    exact List.take_left' rfl
  have hd : (a ++ b ++ c).drop (a.length + src.length) = c :=
    List.drop_left' (by simp only [List.length_append]; omega)
  unfold uset
  rw [if_pos hlen, ht, hd]

theorem uset_tail (a b src : Bytes) (h : src.length = b.length) :
    uset (a ++ b) src a.length = some (a ++ src) := by
  have := uset_exact a b [] src h
  simpa using this

theorem registrySignedMessage_eq (datakey data encRev : Bytes)
    (hdk : datakey.length = 32) (hrev : encRev.length = 8) :
    registrySignedMessage datakey data (u64le data.length ++ data) encRev =
      some (datakey ++ (u64le data.length ++ data) ++ encRev) := by
  have hsplit : (List.replicate (32 + 8 + data.length + 8) 0 : Bytes) =
      List.replicate 32 0 ++ List.replicate (8 + data.length) 0 ++ List.replicate 8 0 := by
    rw [List.append_assoc, ← List.replicate_add, ← List.replicate_add]
    congr 1
    omega
  have e1 : uset (List.replicate (32 + 8 + data.length + 8) 0) datakey 0 =
      some (datakey ++ List.replicate (8 + data.length) 0 ++ List.replicate 8 0) := by
    have h := uset_exact [] (List.replicate 32 0)
      (List.replicate (8 + data.length) 0 ++ List.replicate 8 0) datakey
      (by simp [hdk])
    simp only [List.nil_append, List.length_nil] at h
    rw [hsplit, List.append_assoc, h, ← List.append_assoc]
  have e2 : uset (datakey ++ List.replicate (8 + data.length) 0 ++ List.replicate 8 0)
      (u64le data.length ++ data) 32 =
      some (datakey ++ (u64le data.length ++ data) ++ List.replicate 8 0) := by
    have h := uset_exact datakey (List.replicate (8 + data.length) 0) (List.replicate 8 0)
      (u64le data.length ++ data) (by simp [u64le_length])
    rwa [hdk] at h
  have e3 : uset (datakey ++ (u64le data.length ++ data) ++ List.replicate 8 0)
      encRev (32 + 8 + data.length) =
      some (datakey ++ (u64le data.length ++ data) ++ encRev) := by
    have h := uset_tail (datakey ++ (u64le data.length ++ data)) (List.replicate 8 0)
      encRev (by simp [hrev])
    rwa [show (datakey ++ (u64le data.length ++ data)).length = 32 + 8 + data.length by
      simp [hdk, u64le_length]; omega] at h
  simp only [registrySignedMessage, e1, e2, e3]

theorem encodePrefixedBytes_eq (data : Bytes) (h : (data.length : Int) < 2 ^ 64) :
    encodePrefixedBytes data = Except.ok (u64le data.length ++ data) := by
  have hni : ¬((data.length : Int) < 0 ∨ (2 : Int) ^ 64 ≤ (data.length : Int)) := by
    push_neg
    exact ⟨by exact_mod_cast Nat.zero_le _, h⟩
  unfold encodePrefixedBytes encodeU64
  rw [if_neg hni]
  simp

theorem encodeU64_eq (n : Int) (h0 : 0 ≤ n) (h1 : n < 2 ^ 64) :
    encodeU64 n = Except.ok (u64le n.toNat) := by
  unfold encodeU64
  rw [if_neg (by push_neg; exact ⟨h0, h1⟩)]

/-- C2: for every 32-byte datakey, data of at most 86 bytes, revision below
2^64, and keypair produced by the signature scheme from 32 bytes of entropy,
`computeRegistrySignature` succeeds, `verifyRegistrySignature` accepts the
produced signature, and both sides hash exactly the preimage
`datakey ++ encodePrefixedBytes(data) ++ encodeU64(revision)`. -/
theorem registry_sign_verify_roundtrip (S : Ed25519Scheme) (blake2b : Bytes → Bytes)
    (entropy datakey data : Bytes) (revision : Int) (kp : Ed25519Keypair)
    (hent : entropy.length = 32) (hkp : S.keypairFromEntropy entropy = Except.ok kp)
    (hdk : datakey.length = 32) (hdata : data.length ≤ 86)
    (hr0 : 0 ≤ revision) (hr1 : revision < 2 ^ 64) :
    ∃ sig : Bytes,
      computeRegistrySignature S blake2b kp.secretKey datakey data revision =
        some (Except.ok sig) ∧
      verifyRegistrySignature S blake2b kp.publicKey datakey data revision sig =
        some true ∧
      S.sign (blake2b (registryEntryPreimage datakey data revision)) kp.secretKey =
        Except.ok sig ∧
      registrySignedMessage datakey data (u64le data.length ++ data) (u64le revision.toNat) =
        some (registryEntryPreimage datakey data revision) := by
  have hpow : (2 : Int) ^ 64 = 18446744073709551616 := by norm_num
  have hepb : encodePrefixedBytes data = Except.ok (u64le data.length ++ data) := by
    refine encodePrefixedBytes_eq data ?_
    have h86 : (data.length : Int) ≤ 86 := by exact_mod_cast hdata
    rw [hpow]
    omega
  have heu : encodeU64 revision = Except.ok (u64le revision.toNat) := encodeU64_eq _ hr0 hr1
  have hmsg := registrySignedMessage_eq datakey data (u64le revision.toNat) hdk (u64le_length _)
  obtain ⟨sig, hsig⟩ := S.sign_total entropy kp
    (blake2b (registryEntryPreimage datakey data revision)) hent hkp
  have hver := S.verify_sign entropy kp
    (blake2b (registryEntryPreimage datakey data revision)) sig hent hkp hsig
  have hsig2 := hsig
  have hver2 := hver
  unfold registryEntryPreimage at hsig2 hver2
  refine ⟨sig, ?_, ?_, hsig, ?_⟩
  · unfold computeRegistrySignature
    rw [if_neg (by omega)]
    simp only [hepb, heu, hmsg, hsig2]
  · unfold verifyRegistrySignature
    simp only [hepb, heu, hmsg, hver2]
  · unfold registryEntryPreimage
    exact hmsg

/-- Witness for C2 on closed inputs: the concrete scheme `plainScheme`, a zero
hash function, 32 zero bytes of entropy, a zero datakey, empty data, and
revision 0 satisfy every hypothesis of the round-trip theorem. -/
theorem registry_sign_verify_roundtrip_witness :
    ∃ sig : Bytes,
      computeRegistrySignature plainScheme (fun _ => []) (List.replicate 32 0)
        (List.replicate 32 0) [] 0 = some (Except.ok sig) ∧
      verifyRegistrySignature plainScheme (fun _ => []) (List.replicate 32 0)
        (List.replicate 32 0) [] 0 sig = some true ∧
      plainScheme.sign ((fun (_ : Bytes) => ([] : Bytes))
        (registryEntryPreimage (List.replicate 32 0) [] 0)) (List.replicate 32 0) =
        Except.ok sig ∧
      registrySignedMessage (List.replicate 32 0) [] (u64le 0 ++ []) (u64le 0) =
        some (registryEntryPreimage (List.replicate 32 0) [] 0) := by
  exact registry_sign_verify_roundtrip plainScheme (fun _ => [])
    (List.replicate 32 0) (List.replicate 32 0) [] 0
    ⟨List.replicate 32 0, List.replicate 32 0⟩
    (by decide) rfl (by decide) (by decide) (by decide) (by decide)

/-- C3 (code bug): `verifyRegistrySignature` is supposed never to throw and to
return `false` on malformed input, but on a datakey longer than
`48 + data.length` bytes the call `dataToVerify.set(datakey, 0)` throws a
`RangeError` (modelled as `none`) instead of returning `false`.  Concretely,
with a 49-byte datakey and empty data the function throws for every scheme,
hash function, public key and signature. -/
theorem verifyRegistrySignature_throws_on_long_datakey (S : Ed25519Scheme)
    (blake2b : Bytes → Bytes) (pubkey sig : Bytes) :
    verifyRegistrySignature S blake2b pubkey (List.replicate 49 0) [] 0 sig = none := rfl

/-- C10: the 86-byte registry-data limit is enforced only on the signing side.
`computeRegistrySignature` rejects any data longer than 86 bytes with the fixed
error string, while `verifyRegistrySignature` imposes no length bound: if the
signature verifies over the preimage
`datakey ++ encodePrefixedBytes(data) ++ encodeU64(revision)`, verification
returns `true` even for data longer than 86 bytes. -/
theorem registry_data_limit_signing_only (S : Ed25519Scheme) (blake2b : Bytes → Bytes)
    (secretKey pubkey datakey data sig : Bytes) (revision : Int)
    (hdk : datakey.length = 32) (hbig : 86 < data.length)
    (hlen : (data.length : Int) < 2 ^ 64)
    (hr0 : 0 ≤ revision) (hr1 : revision < 2 ^ 64)
    (hver : S.verify (blake2b (registryEntryPreimage datakey data revision)) sig pubkey = true) :
    computeRegistrySignature S blake2b secretKey datakey data revision =
      some (Except.error "registry data must be at most 86 bytes") ∧
    verifyRegistrySignature S blake2b pubkey datakey data revision sig = some true := by
  constructor
  · unfold computeRegistrySignature
    rw [if_pos hbig]
  · have hepb := encodePrefixedBytes_eq data hlen
    have heu := encodeU64_eq revision hr0 hr1
    have hmsg := registrySignedMessage_eq datakey data (u64le revision.toNat) hdk (u64le_length _)
    have hver2 := hver
    unfold registryEntryPreimage at hver2
    unfold verifyRegistrySignature
    simp only [hepb, heu, hmsg, hver2]

/-- Witness for C10 on closed inputs: with the concrete scheme `plainScheme`,
a zero hash, an 87-byte data value and a signature valid under that scheme,
signing is rejected while verification succeeds. -/
theorem registry_data_limit_signing_only_witness :
    computeRegistrySignature plainScheme (fun _ => []) [] (List.replicate 32 0)
      (List.replicate 87 0) 0 =
      some (Except.error "registry data must be at most 86 bytes") ∧
    verifyRegistrySignature plainScheme (fun _ => []) [] (List.replicate 32 0)
      (List.replicate 87 0) 0 [] = some true := by
  exact registry_data_limit_signing_only plainScheme (fun _ => []) [] []
    (List.replicate 32 0) (List.replicate 87 0) [] 0
    (by decide) (by decide) (by decide) (by decide) (by decide) rfl

/-! ## Registry entry IDs (src/libs/libskynet/src/registry.ts and
src/libkerneldev/src/registry.ts, identical) -/

/-- The seven ASCII bytes "ed25519" written into `encoding[0..6]`. -/
def entrySpecifier : Bytes := [101, 100, 50, 53, 53, 49, 57]

/-- The 16-byte specifier field of the encoding: the seven ASCII bytes of
"ed25519" followed by the nine zero bytes the code never overwrites (the Sia
protocol's 16-byte specifier). -/
def entrySpecifierPadded : Bytes := entrySpecifier ++ List.replicate 9 0

/-- The 88-byte preimage actually hashed by `deriveRegistryEntryID`:
16-byte padded specifier, 8-byte encoded length 32, pubkey, datakey. -/
def entryIDPreimage (pubkey datakey : Bytes) : Bytes :=
  entrySpecifierPadded ++ u64le 32 ++ pubkey ++ datakey

/-- The preimage as the claim words it: the fixed 7-byte specifier directly
followed by the encoded value 32, the pubkey, and the datakey (no padding). -/
def entryIDPreimageClaimed (pubkey datakey : Bytes) : Bytes :=
  entrySpecifier ++ u64le 32 ++ pubkey ++ datakey

/-- Embedding of `deriveRegistryEntryID(pubkey, datakey)` from
src/libs/libskynet/src/registry.ts (src/libkerneldev/src/registry.ts is
identical).  Builds the 88-byte `Uint8Array` encoding: bytes 0..6 are set to
"ed25519", the encoded length 32 at offset 16, the pubkey at offset 24, the
datakey at offset 56; the result is the hash of that encoding. -/
def deriveRegistryEntryID (blake2b : Bytes → Bytes) (pubkey datakey : Bytes) :
    Option (Except String Bytes) :=
  if pubkey.length ≠ 32 then
    some (Except.error "pubkey is invalid, length is wrong")
  else if datakey.length ≠ 32 then
    some (Except.error "datakey is not a valid hash, length is wrong")
  else
    let encoding0 : Bytes := List.replicate (16 + 8 + 32 + 32) 0
    let encoding1 :=
      ((((((encoding0.set 0 101).set 1 100).set 2 50).set 3 53).set 4 53).set 5 49).set 6 57
    match encodeU64 32 with
    | Except.error e => some (Except.error (addContextToErr e "unable to encode pubkey length"))
    | Except.ok encodedLen =>
      match uset encoding1 encodedLen 16 with
      | none => none
      | some encoding2 =>
        match uset encoding2 pubkey (16 + 8) with
        | none => none
        | some encoding3 =>
          match uset encoding3 datakey (16 + 8 + 32) with
          | none => none
          | some encoding4 => some (Except.ok (blake2b encoding4))

theorem deriveRegistryEntryID_ok (blake2b : Bytes → Bytes) (pubkey datakey : Bytes)
    (hpk : pubkey.length = 32) (hdk : datakey.length = 32) :
    deriveRegistryEntryID blake2b pubkey datakey =
      some (Except.ok (blake2b (entryIDPreimage pubkey datakey))) := by
  have h1 : ((((((((List.replicate (16 + 8 + 32 + 32) 0 : Bytes).set 0 101).set 1 100).set
      2 50).set 3 53).set 4 53).set 5 49).set 6 57) =
      entrySpecifierPadded ++ List.replicate 8 0 ++ List.replicate 64 0 := by decide
  have e1 : uset (entrySpecifierPadded ++ List.replicate 8 0 ++ List.replicate 64 0)
      (u64le 32) 16 =
      some (entrySpecifierPadded ++ u64le 32 ++ List.replicate 64 0) := by
    have h := uset_exact entrySpecifierPadded (List.replicate 8 0) (List.replicate 64 0)
      (u64le 32) (by decide)
    rwa [show entrySpecifierPadded.length = 16 by decide] at h
  have h2 : (entrySpecifierPadded ++ u64le 32 ++ List.replicate 64 0 : Bytes) =
      entrySpecifierPadded ++ u64le 32 ++ List.replicate 32 0 ++ List.replicate 32 0 := by decide
  have e2 : uset (entrySpecifierPadded ++ u64le 32 ++ List.replicate 32 0 ++ List.replicate 32 0)
      pubkey (16 + 8) =
      some (entrySpecifierPadded ++ u64le 32 ++ pubkey ++ List.replicate 32 0) := by
    have h := uset_exact (entrySpecifierPadded ++ u64le 32) (List.replicate 32 0)
      (List.replicate 32 0) pubkey (by simp [hpk])
    rwa [show (entrySpecifierPadded ++ u64le 32).length = 16 + 8 by decide] at h
  have e3 : uset (entrySpecifierPadded ++ u64le 32 ++ pubkey ++ List.replicate 32 0)
      datakey (16 + 8 + 32) =
      some (entryIDPreimage pubkey datakey) := by
    have h := uset_tail (entrySpecifierPadded ++ u64le 32 ++ pubkey) (List.replicate 32 0)
      datakey (by simp [hdk])
    rw [show (entrySpecifierPadded ++ u64le 32 ++ pubkey).length = 16 + 8 + 32 by
      simp [hpk, entrySpecifierPadded, entrySpecifier, u64le_length]] at h
    exact h
  unfold deriveRegistryEntryID
  rw [if_neg (by simp [hpk]), if_neg (by simp [hdk])]
  simp only [h1, show encodeU64 32 = Except.ok (u64le 32) from rfl, e1, h2, e2, e3]

/-- C6 (amended): `deriveRegistryEntryID` errors exactly when pubkey or datakey
is not 32 bytes; on 32-byte inputs it returns the hash of the preimage made of
the 7-byte specifier padded with nine zero bytes to the 16-byte specifier
field, the encoded value 32, the pubkey and the datakey; and that preimage
determines the two inputs (any change to either changes the preimage). -/
theorem deriveRegistryEntryID_spec (blake2b : Bytes → Bytes) (pubkey datakey : Bytes) :
    ((∃ e, deriveRegistryEntryID blake2b pubkey datakey = some (Except.error e)) ↔
      (pubkey.length ≠ 32 ∨ datakey.length ≠ 32)) ∧
    (pubkey.length = 32 → datakey.length = 32 →
      deriveRegistryEntryID blake2b pubkey datakey =
        some (Except.ok (blake2b (entryIDPreimage pubkey datakey)))) ∧
    (∀ pk2 dk2 : Bytes, pubkey.length = 32 → pk2.length = 32 →
      entryIDPreimage pubkey datakey = entryIDPreimage pk2 dk2 →
      pubkey = pk2 ∧ datakey = dk2) := by
  refine ⟨?_, fun hpk hdk => deriveRegistryEntryID_ok blake2b pubkey datakey hpk hdk, ?_⟩
  · constructor
    · rintro ⟨e, he⟩
      by_contra hcon
      push_neg at hcon
      rw [deriveRegistryEntryID_ok blake2b pubkey datakey hcon.1 hcon.2] at he
      exact absurd he (by simp)
    · rintro (h | h)
      · refine ⟨"pubkey is invalid, length is wrong", ?_⟩
        unfold deriveRegistryEntryID
        rw [if_pos h]
      · by_cases hpk : pubkey.length = 32
        · refine ⟨"datakey is not a valid hash, length is wrong", ?_⟩
          unfold deriveRegistryEntryID
          rw [if_neg (by simp [hpk]), if_pos h]
        · refine ⟨"pubkey is invalid, length is wrong", ?_⟩
          unfold deriveRegistryEntryID
          rw [if_pos hpk]
  · intro pk2 dk2 hp1 hp2 heq
    unfold entryIDPreimage at heq
    have hlen : (entrySpecifierPadded ++ u64le 32 ++ pubkey).length =
        (entrySpecifierPadded ++ u64le 32 ++ pk2).length := by
      simp [hp1, hp2]
    obtain ⟨hfront, hdk⟩ := List.append_inj heq hlen
    refine ⟨?_, hdk⟩
    exact List.append_cancel_left hfront

/-- Witness for C6 on closed inputs: with the identity as the hash, the entry
ID of a concrete 32-byte pubkey and datakey is exactly the padded preimage. -/
theorem deriveRegistryEntryID_spec_witness :
    deriveRegistryEntryID (fun l => l) (List.replicate 32 1) (List.replicate 32 2) =
      some (Except.ok (entryIDPreimage (List.replicate 32 1) (List.replicate 32 2))) :=
  (deriveRegistryEntryID_spec (fun l => l) (List.replicate 32 1)
    (List.replicate 32 2)).2.1 (by decide) (by decide)

/-- C6 counterexample: at concrete 32-byte inputs, the preimage the code hashes
(88 bytes: the specifier field is padded to 16 bytes) differs from the
preimage the claim describes (79 bytes: a bare 7-byte specifier directly
followed by the encoded 32), so the claim's description of the hashed bytes is
wrong; with the identity hash the returned ID is the 88-byte preimage, not the
claimed one. -/
theorem deriveRegistryEntryID_padding_counterexample :
    deriveRegistryEntryID (fun l => l) (List.replicate 32 0) (List.replicate 32 0) =
      some (Except.ok (entryIDPreimage (List.replicate 32 0) (List.replicate 32 0))) ∧
    entryIDPreimage (List.replicate 32 0) (List.replicate 32 0) ≠
      entryIDPreimageClaimed (List.replicate 32 0) (List.replicate 32 0) := by
  constructor
  · rfl
  · decide

/-! ## UTF-8 (the `TextEncoder` primitive used for tag strings) -/

/-- Standard UTF-8 encoding of a single character, which is what
`new TextEncoder().encode` produces per character. -/
def utf8EncodeChar (c : Char) : Bytes :=
  let v := c.toNat
  if v < 128 then [v]
  else if v < 2048 then [192 + v / 64, 128 + v % 64]
  else if v < 65536 then [224 + v / 4096, 128 + v / 64 % 64, 128 + v % 64]
  else [240 + v / 262144, 128 + v / 4096 % 64, 128 + v / 64 % 64, 128 + v % 64]

/-- UTF-8 encoding of a string (modelled as a list of characters). -/
def utf8Encode : List Char → Bytes
  | [] => []
  | c :: cs => utf8EncodeChar c ++ utf8Encode cs

theorem utf8EncodeChar_prefix_inj (c₁ c₂ : Char) (r₁ r₂ : Bytes)
    (h : utf8EncodeChar c₁ ++ r₁ = utf8EncodeChar c₂ ++ r₂) : c₁ = c₂ ∧ r₁ = r₂ := by
  have hc : c₁.toNat = c₂.toNat → c₁ = c₂ := by
    intro hv
    rw [← Char.ofNat_toNat c₁, ← Char.ofNat_toNat c₂, hv]
  simp only [utf8EncodeChar] at h
  split_ifs at h <;>
    simp only [List.cons_append, List.nil_append, List.cons.injEq] at h <;>
    first
    | exact ⟨hc h.1, h.2⟩
    | exact ⟨hc (by have := h.1; have := h.2.1; omega), h.2.2⟩
    | exact ⟨hc (by have := h.1; have := h.2.1; have := h.2.2.1; omega), h.2.2.2⟩
    | exact ⟨hc (by have := h.1; have := h.2.1; have := h.2.2.1; have := h.2.2.2.1; omega),
        h.2.2.2.2⟩
    | (exfalso; have h1 := h.1; omega)

theorem utf8Encode_inj : ∀ s t : List Char, utf8Encode s = utf8Encode t → s = t
  | [], [], _ => rfl
  | [], c :: cs, h => by
    exfalso
    rw [show utf8Encode [] = [] from rfl] at h
    have : utf8EncodeChar c ++ utf8Encode cs = [] := h.symm
    rcases List.append_eq_nil.mp this with ⟨h1, _⟩
    simp only [utf8EncodeChar] at h1
    split_ifs at h1
  | c :: cs, [], h => by
    exfalso
    rw [show utf8Encode [] = [] from rfl] at h
    rcases List.append_eq_nil.mp h with ⟨h1, _⟩
    simp only [utf8EncodeChar] at h1
    split_ifs at h1
  | c :: cs, d :: ds, h => by
    obtain ⟨hc, hr⟩ := utf8EncodeChar_prefix_inj c d (utf8Encode cs) (utf8Encode ds) h
    rw [hc, utf8Encode_inj cs ds hr]

/-! ## Tagged registry entry keys (src/libs/libskynet/src/registry.ts and
src/libkerneldev/src/registry.ts, identical up to the optional datakey tag) -/

/-- The `entropyInput` buffer of `taggedRegistryEntryKeys`: a `Uint8Array` of
length `keypairTag.length + seed.length` receiving the seed at offset 0 and
the keypair tag at offset `seed.length`. -/
def entropyInput (seed keypairTag : Bytes) : Option Bytes :=
  match uset (List.replicate (keypairTag.length + seed.length) 0) seed 0 with
  | none => none
  | some t1 => uset t1 keypairTag seed.length

/-- The `datakeyInput` buffer of `taggedRegistryEntryKeys`: a `Uint8Array` of
length `seed.length + 1 + keypairTag.length + datakeyTag.length` receiving the
seed at offset 0, the one-byte keypair-tag length at offset `seed.length`
(`keypairLen[0] = keypairTag.length` stores the byte length modulo 256, the
`Uint8Array` element wrap), the keypair tag at `seed.length + 1` and the
datakey tag after it. -/
def datakeyInput (seed keypairTag datakeyTag : Bytes) : Option Bytes :=
  match
    uset (List.replicate (seed.length + 1 + keypairTag.length + datakeyTag.length) 0) seed 0
  with
  | none => none
  | some t1 =>
    match uset t1 [keypairTag.length % 256] seed.length with
    | none => none
    | some t2 =>
      match uset t2 keypairTag (seed.length + 1) with
      | none => none
      | some t3 => uset t3 datakeyTag (seed.length + 1 + keypairTag.length)

/-- Embedding of `taggedRegistryEntryKeys(seed, keypairTagStr, datakeyTagStr)`
from src/libs/libskynet/src/registry.ts (src/libkerneldev/src/registry.ts is
identical; the libskynet version defaults an absent datakey tag to the empty
string, modelled by the caller passing `[]`). -/
def taggedRegistryEntryKeys (sha512 : Bytes → Bytes) (S : Ed25519Scheme) (seed : Bytes)
    (keypairTagStr datakeyTagStr : List Char) :
    Option (Except String (Ed25519Keypair × Bytes)) :=
  if seed.length ≠ 16 then
    some (Except.error "seed has the wrong length")
  else if 255 < keypairTagStr.length then
    some (Except.error "keypairTag must be less than 256 characters")
  else
    let keypairTag := utf8Encode keypairTagStr
    let datakeyTag := utf8Encode datakeyTagStr
    match entropyInput seed keypairTag with
    | none => none
    | some ei =>
      let keypairEntropy := sha512 ei
      match datakeyInput seed keypairTag datakeyTag with
      | none => none
      | some di =>
        let datakeyEntropy := sha512 di
        match S.keypairFromEntropy (keypairEntropy.take 32) with
        | Except.error e => some (Except.error (addContextToErr e "unable to derive keypair"))
        | Except.ok keypair => some (Except.ok (keypair, datakeyEntropy.take 32))

theorem datakeyInput_eq (seed kt dt : Bytes) :
    datakeyInput seed kt dt = some (seed ++ [kt.length % 256] ++ kt ++ dt) := by
  have hsplit : (List.replicate (seed.length + 1 + kt.length + dt.length) 0 : Bytes) =
      List.replicate seed.length 0 ++ List.replicate 1 0 ++
        (List.replicate kt.length 0 ++ List.replicate dt.length 0) := by
    rw [← List.replicate_add, ← List.replicate_add, ← List.replicate_add]
    congr 1
    omega
  have e1 : uset (List.replicate (seed.length + 1 + kt.length + dt.length) 0) seed 0 =
      some (seed ++ List.replicate 1 0 ++ (List.replicate kt.length 0 ++
        List.replicate dt.length 0)) := by
    have h := uset_exact [] (List.replicate seed.length 0)
      (List.replicate 1 0 ++ (List.replicate kt.length 0 ++ List.replicate dt.length 0)) seed
      (by simp)
    simp only [List.nil_append, List.length_nil] at h
    rw [hsplit, List.append_assoc, h, ← List.append_assoc]
  have e2 : uset (seed ++ List.replicate 1 0 ++ (List.replicate kt.length 0 ++
      List.replicate dt.length 0)) [kt.length % 256] seed.length =
      some (seed ++ [kt.length % 256] ++ (List.replicate kt.length 0 ++
        List.replicate dt.length 0)) :=
    uset_exact seed (List.replicate 1 0)
      (List.replicate kt.length 0 ++ List.replicate dt.length 0) [kt.length % 256] (by simp)
  have e3 : uset (seed ++ [kt.length % 256] ++ (List.replicate kt.length 0 ++
      List.replicate dt.length 0)) kt (seed.length + 1) =
      some (seed ++ [kt.length % 256] ++ kt ++ List.replicate dt.length 0) := by
    have h := uset_exact (seed ++ [kt.length % 256]) (List.replicate kt.length 0)
      (List.replicate dt.length 0) kt (by simp)
    rw [show (seed ++ [kt.length % 256]).length = seed.length + 1 by
      simp only [List.length_append, List.length_cons, List.length_nil]] at h
    rw [← List.append_assoc]
    exact h
  have e4 : uset (seed ++ [kt.length % 256] ++ kt ++ List.replicate dt.length 0) dt
      (seed.length + 1 + kt.length) =
      some (seed ++ [kt.length % 256] ++ kt ++ dt) := by
    have h := uset_tail (seed ++ [kt.length % 256] ++ kt) (List.replicate dt.length 0) dt
      (by simp)
    rw [show (seed ++ [kt.length % 256] ++ kt).length = seed.length + 1 + kt.length by
      simp only [List.length_append, List.length_cons, List.length_nil]] at h
    exact h
  simp only [datakeyInput, e1, e2, e3, e4]

/-- C5 (amended): for any seed, two tag pairs whose keypair tags encode to at
most 255 UTF-8 bytes (in particular, any tags of at most 255 ASCII characters)
produce equal datakey-derivation preimages
`seed ++ [len(keypairTag)] ++ keypairTag ++ datakeyTag` only if they are the
same pair: in this range the one-byte length prefix rules out collisions.  The
original claim, stated for all tags of at most 255 *characters*, fails because
the stored length byte is the UTF-8 *byte* count modulo 256 (see the
counterexample). -/
theorem datakeyInput_inj (seed : Bytes) (k₁ d₁ k₂ d₂ : List Char)
    (hk₁ : (utf8Encode k₁).length ≤ 255) (hk₂ : (utf8Encode k₂).length ≤ 255)
    (heq : datakeyInput seed (utf8Encode k₁) (utf8Encode d₁) =
      datakeyInput seed (utf8Encode k₂) (utf8Encode d₂)) :
    k₁ = k₂ ∧ d₁ = d₂ := by
  rw [datakeyInput_eq, datakeyInput_eq, Option.some.injEq] at heq
  rw [List.append_assoc, List.append_assoc, List.append_assoc, List.append_assoc] at heq
  have heq2 := List.append_cancel_left heq
  simp only [List.cons_append, List.nil_append, List.cons.injEq] at heq2
  obtain ⟨hlen, htail⟩ := heq2
  have hlen2 : (utf8Encode k₁).length = (utf8Encode k₂).length := by
    rw [Nat.mod_eq_of_lt (by omega), Nat.mod_eq_of_lt (by omega)] at hlen
    exact hlen
  obtain ⟨hkt, hdt⟩ := List.append_inj htail hlen2
  exact ⟨utf8Encode_inj _ _ hkt, utf8Encode_inj _ _ hdt⟩

/-- Witness for C5 (amended) on closed inputs: applying the injectivity theorem
to the pair (["a"], ["b"]) against itself, with every hypothesis discharged by
evaluation. -/
theorem datakeyInput_inj_witness :
    (['a'] : List Char) = ['a'] ∧ (['b'] : List Char) = ['b'] :=
  datakeyInput_inj (List.replicate 16 0) ['a'] ['b'] ['a'] ['b']
    (by decide) (by decide) rfl

set_option maxRecDepth 8000 in
/-- C5 counterexample: the two distinct tag pairs
`("a" ++ 128 copies of "é", "")` and `("a", 128 copies of "é")` are both
accepted by `taggedRegistryEntryKeys` (both keypair tags have at most 255
characters, and with a concrete hash and scheme both calls return a derived
key), yet they build the identical datakey-derivation preimage: the first
keypair tag is 257 UTF-8 bytes, so its stored length byte is 257 % 256 = 1,
the same as the one-byte tag "a". -/
theorem datakeyInput_collision_counterexample :
    (('a' :: List.replicate 128 'é', ([] : List Char)) ≠
      (['a'], List.replicate 128 'é')) ∧
    ('a' :: List.replicate 128 'é').length ≤ 255 ∧
    (['a'] : List Char).length ≤ 255 ∧
    datakeyInput (List.replicate 16 0) (utf8Encode ('a' :: List.replicate 128 'é'))
        (utf8Encode []) =
      datakeyInput (List.replicate 16 0) (utf8Encode ['a'])
        (utf8Encode (List.replicate 128 'é')) ∧
    taggedRegistryEntryKeys (fun _ => List.replicate 64 0) plainScheme
        (List.replicate 16 0) ('a' :: List.replicate 128 'é') [] =
      some (Except.ok (⟨List.replicate 32 0, List.replicate 32 0⟩, List.replicate 32 0)) ∧
    taggedRegistryEntryKeys (fun _ => List.replicate 64 0) plainScheme
        (List.replicate 16 0) ['a'] (List.replicate 128 'é') =
      some (Except.ok (⟨List.replicate 32 0, List.replicate 32 0⟩, List.replicate 32 0)) := by
  refine ⟨by decide, by decide, by decide, rfl, rfl, rfl⟩

/-! ## Progressive fetch (src/unnamed/part_000) -/

/-- A fetch response as inspected by `progressiveFetchHelper`: `status` is
`some s` when the response object has a numeric `status` field and `none`
otherwise (field missing or not a number); `body` is an opaque identifier
standing for the rest of the response object. -/
structure Response where
  status : Option Int
  body : Nat
deriving DecidableEq, Repr

/-- The outcome of `fetch(query, fetchOpts)` for one query: the promise either
rejects with an opaque error value or resolves with a response. -/
inductive FetchOutcome where
  | fetchErr (e : Nat)
  | fetchResp (r : Response)
deriving DecidableEq, Repr

/-- An entry of `responsesFailed`: the code pushes failing responses and caught
fetch errors into the same array. -/
inductive RespOrErr where
  | resp (r : Response)
  | err (e : Nat)
deriving DecidableEq, Repr

/-- A log line pushed by the helper.  The code renders log lines as strings
with `JSON.stringify`; the rendering is abstracted here, each constructor
keeping the data the line is built from (for the exhaustion line, the portals
recorded in the stringified midstate). -/
inductive LogEntry where
  | invalidResponse (portal query : String) (r : Response)
  | errorStatus (portal query : String) (r : Response)
  | fetchFailed (e : Nat)
  | allPortalsFailed (portalsFailed : List String)
deriving DecidableEq, Repr

/-- The object resolved by `progressiveFetch`.  In the exhaustion case the
code resolves with `portal: null, response: null, remainingPortals: null`,
modelled by `none`. -/
structure FetchResult where
  success : Bool
  portal : Option String
  response : Option Response
  portalsFailed : List String
  responsesFailed : List RespOrErr
  remainingPortals : Option (List String)
  logs : List LogEntry
deriving DecidableEq, Repr

/-- The query string `"https://" + portal + endpoint`. -/
def mkQuery (portal endpoint : String) : String := "https://" ++ portal ++ endpoint

/-- Embedding of `progressiveFetchHelper(pfm, resolve)` from
src/unnamed/part_000.  The first list argument is `pfm.remainingPortals`, the
array aliasing the caller's portal list, consumed from the front by `shift()`;
the other three are the accumulated trail.  `net` gives the behaviour of
`fetch` for each query string (`fetchOpts` never influences the helper's
control flow and is folded into `net`).  The result pairs the resolved
`FetchResult` with the final contents of the aliased portals array. -/
def progressiveFetchHelper (net : String → FetchOutcome) (endpoint : String) :
    List String → List String → List RespOrErr → List LogEntry →
    FetchResult × List String
  | [], portalsFailed, responsesFailed, logs =>
    (⟨false, none, none, portalsFailed, responsesFailed, none,
      logs ++ [LogEntry.allPortalsFailed portalsFailed]⟩, [])
  | portal :: rest, portalsFailed, responsesFailed, logs =>
    match net (mkQuery portal endpoint) with
    | FetchOutcome.fetchErr e =>
      progressiveFetchHelper net endpoint rest (portalsFailed ++ [portal])
        (responsesFailed ++ [RespOrErr.err e]) (logs ++ [LogEntry.fetchFailed e])
    | FetchOutcome.fetchResp r =>
      match r.status with
      | none =>
        progressiveFetchHelper net endpoint rest (portalsFailed ++ [portal])
          (responsesFailed ++ [RespOrErr.resp r])
          (logs ++ [LogEntry.invalidResponse portal (mkQuery portal endpoint) r])
      | some s =>
        if s < 200 ∨ 300 ≤ s then
          progressiveFetchHelper net endpoint rest (portalsFailed ++ [portal])
            (responsesFailed ++ [RespOrErr.resp r])
            (logs ++ [LogEntry.errorStatus portal (mkQuery portal endpoint) r])
        else
          (⟨true, some portal, some r, portalsFailed, responsesFailed, some rest, logs⟩,
            rest)

/-- Embedding of `progressiveFetch(endpoint, fetchOpts, portals)` from
src/unnamed/part_000: starts the helper with empty trail lists and with
`remainingPortals` aliasing the caller's `portals` array. -/
def progressiveFetch (net : String → FetchOutcome) (endpoint : String)
    (portals : List String) : FetchResult × List String :=
  progressiveFetchHelper net endpoint portals [] [] []

/-- Whether a portal fails under `net`: the fetch rejects, or the response has
no numeric status, or the status is outside [200, 300). -/
def failsUnder (net : String → FetchOutcome) (endpoint portal : String) : Bool :=
  match net (mkQuery portal endpoint) with
  | FetchOutcome.fetchErr _ => true
  | FetchOutcome.fetchResp r =>
    match r.status with
    | none => true
    | some s => decide (s < 200) || decide (300 ≤ s)

/-- The `responsesFailed` entry pushed for a failing portal. -/
def failEntry (net : String → FetchOutcome) (endpoint portal : String) : RespOrErr :=
  match net (mkQuery portal endpoint) with
  | FetchOutcome.fetchErr e => RespOrErr.err e
  | FetchOutcome.fetchResp r => RespOrErr.resp r

/-- The log line pushed for a failing portal. -/
def failLog (net : String → FetchOutcome) (endpoint portal : String) : LogEntry :=
  match net (mkQuery portal endpoint) with
  | FetchOutcome.fetchErr e => LogEntry.fetchFailed e
  | FetchOutcome.fetchResp r =>
    match r.status with
    | none => LogEntry.invalidResponse portal (mkQuery portal endpoint) r
    | some _ => LogEntry.errorStatus portal (mkQuery portal endpoint) r

theorem helper_all_fail (net : String → FetchOutcome) (endpoint : String) :
    ∀ (portals pf : List String) (rf : List RespOrErr) (lg : List LogEntry),
    (∀ p ∈ portals, failsUnder net endpoint p = true) →
    progressiveFetchHelper net endpoint portals pf rf lg =
      (⟨false, none, none, pf ++ portals, rf ++ portals.map (failEntry net endpoint),
        none, lg ++ portals.map (failLog net endpoint) ++
          [LogEntry.allPortalsFailed (pf ++ portals)]⟩, []) := by
  intro portals
  induction portals with
  | nil =>
    intro pf rf lg _
    simp [progressiveFetchHelper]
  | cons portal rest ih =>
    intro pf rf lg hfail
    have hrest : ∀ p ∈ rest, failsUnder net endpoint p = true := fun p hp2 =>
      hfail p (List.mem_cons_of_mem _ hp2)
    cases hnet : net (mkQuery portal endpoint) with
    | fetchErr e =>
      simp only [progressiveFetchHelper, hnet]
      rw [ih (pf ++ [portal]) (rf ++ [RespOrErr.err e]) (lg ++ [LogEntry.fetchFailed e]) hrest]
      simp [failEntry, failLog, hnet, List.append_assoc]
    | fetchResp r =>
      cases hst : r.status with
      | none =>
        simp only [progressiveFetchHelper, hnet, hst]
        rw [ih (pf ++ [portal]) (rf ++ [RespOrErr.resp r])
          (lg ++ [LogEntry.invalidResponse portal (mkQuery portal endpoint) r]) hrest]
        simp [failEntry, failLog, hnet, hst, List.append_assoc]
      | some s =>
        have hp : (decide (s < 200) || decide (300 ≤ s)) = true := by
          simpa only [failsUnder, hnet, hst] using hfail portal (List.mem_cons_self _ _)
        simp only [Bool.or_eq_true, decide_eq_true_eq] at hp
        simp only [progressiveFetchHelper, hnet, hst, if_pos hp]
        rw [ih (pf ++ [portal]) (rf ++ [RespOrErr.resp r])
          (lg ++ [LogEntry.errorStatus portal (mkQuery portal endpoint) r]) hrest]
        simp [failEntry, failLog, hnet, hst, List.append_assoc]

theorem helper_first_success (net : String → FetchOutcome) (endpoint : String) :
    ∀ (pre : List String) (portal : String) (rest pf : List String) (rf : List RespOrErr)
      (lg : List LogEntry) (r : Response) (s : Int),
    (∀ p ∈ pre, failsUnder net endpoint p = true) →
    net (mkQuery portal endpoint) = FetchOutcome.fetchResp r →
    r.status = some s → 200 ≤ s → s < 300 →
    progressiveFetchHelper net endpoint (pre ++ portal :: rest) pf rf lg =
      (⟨true, some portal, some r, pf ++ pre, rf ++ pre.map (failEntry net endpoint),
        some rest, lg ++ pre.map (failLog net endpoint)⟩, rest) := by
  intro pre
  induction pre with
  | nil =>
    intro portal rest pf rf lg r s _ hnet hst h200 h300
    simp only [List.nil_append]
    simp only [progressiveFetchHelper, hnet, hst, if_neg (show ¬(s < 200 ∨ 300 ≤ s) by omega)]
    simp
  | cons q pre ih =>
    intro portal rest pf rf lg r s hfail hnet hst h200 h300
    have hpre : ∀ p ∈ pre, failsUnder net endpoint p = true := fun p hp2 =>
      hfail p (List.mem_cons_of_mem _ hp2)
    simp only [List.cons_append]
    cases hqnet : net (mkQuery q endpoint) with
    | fetchErr e =>
      simp only [progressiveFetchHelper, hqnet]
      rw [ih portal rest (pf ++ [q]) (rf ++ [RespOrErr.err e])
        (lg ++ [LogEntry.fetchFailed e]) r s hpre hnet hst h200 h300]
      simp [failEntry, failLog, hqnet, List.append_assoc]
    | fetchResp r2 =>
      cases hst2 : r2.status with
      | none =>
        simp only [progressiveFetchHelper, hqnet, hst2]
        rw [ih portal rest (pf ++ [q]) (rf ++ [RespOrErr.resp r2])
          (lg ++ [LogEntry.invalidResponse q (mkQuery q endpoint) r2]) r s hpre hnet hst
          h200 h300]
        simp [failEntry, failLog, hqnet, hst2, List.append_assoc]
      | some s2 =>
        have hq : (decide (s2 < 200) || decide (300 ≤ s2)) = true := by
          simpa only [failsUnder, hqnet, hst2] using hfail q (List.mem_cons_self _ _)
        simp only [Bool.or_eq_true, decide_eq_true_eq] at hq
        simp only [progressiveFetchHelper, hqnet, hst2, if_pos hq]
        rw [ih portal rest (pf ++ [q]) (rf ++ [RespOrErr.resp r2])
          (lg ++ [LogEntry.errorStatus q (mkQuery q endpoint) r2]) r s hpre hnet hst
          h200 h300]
        simp [failEntry, failLog, hqnet, hst2, List.append_assoc]

theorem helper_final_array (net : String → FetchOutcome) (endpoint : String) :
    ∀ (portals pf : List String) (rf : List RespOrErr) (lg : List LogEntry),
    (progressiveFetchHelper net endpoint portals pf rf lg).2 =
      ((progressiveFetchHelper net endpoint portals pf rf lg).1.remainingPortals).getD [] := by
  intro portals
  induction portals with
  | nil =>
    intro pf rf lg
    simp [progressiveFetchHelper]
  | cons portal rest ih =>
    intro pf rf lg
    cases hnet : net (mkQuery portal endpoint) with
    | fetchErr e =>
      simp only [progressiveFetchHelper, hnet]
      exact ih _ _ _
    | fetchResp r =>
      cases hst : r.status with
      | none =>
        simp only [progressiveFetchHelper, hnet, hst]
        exact ih _ _ _
      | some s =>
        by_cases hc : s < 200 ∨ 300 ≤ s
        · simp only [progressiveFetchHelper, hnet, hst, if_pos hc]
          exact ih _ _ _
        · simp only [progressiveFetchHelper, hnet, hst, if_neg hc]
          rfl

theorem helper_success_shape (net : String → FetchOutcome) (endpoint : String) :
    ∀ (portals pf : List String) (rf : List RespOrErr) (lg : List LogEntry),
    (progressiveFetchHelper net endpoint portals pf rf lg).1.success = true →
    ∃ (portal : String) (r : Response) (s : Int),
      (progressiveFetchHelper net endpoint portals pf rf lg).1.portal = some portal ∧
      (progressiveFetchHelper net endpoint portals pf rf lg).1.response = some r ∧
      net (mkQuery portal endpoint) = FetchOutcome.fetchResp r ∧
      r.status = some s ∧ 200 ≤ s ∧ s < 300 := by
  intro portals
  induction portals with
  | nil =>
    intro pf rf lg hsuc
    simp [progressiveFetchHelper] at hsuc
  | cons portal rest ih =>
    intro pf rf lg
    cases hnet : net (mkQuery portal endpoint) with
    | fetchErr e =>
      simp only [progressiveFetchHelper, hnet]
      exact ih _ _ _
    | fetchResp r =>
      cases hst : r.status with
      | none =>
        simp only [progressiveFetchHelper, hnet, hst]
        exact ih _ _ _
      | some s =>
        by_cases hc : s < 200 ∨ 300 ≤ s
        · simp only [progressiveFetchHelper, hnet, hst, if_pos hc]
          exact ih _ _ _
        · simp only [progressiveFetchHelper, hnet, hst, if_neg hc]
          intro _
          exact ⟨portal, r, s, rfl, rfl, hnet, hst, by omega, by omega⟩

/-- C1 (amended): the progressiveFetch of src/unnamed/part_000 takes no
verification function at all.  Whenever it resolves with `success = true`,
the accepted response is exactly the first response whose status is in
[200, 300) — a 2xx status alone is sufficient for acceptance — and
verification of the response is left entirely to the caller after return. -/
theorem progressiveFetch_accepts_any_2xx (net : String → FetchOutcome)
    (endpoint : String) (portals : List String)
    (hsuc : (progressiveFetch net endpoint portals).1.success = true) :
    ∃ (portal : String) (r : Response) (s : Int),
      (progressiveFetch net endpoint portals).1.portal = some portal ∧
      (progressiveFetch net endpoint portals).1.response = some r ∧
      net (mkQuery portal endpoint) = FetchOutcome.fetchResp r ∧
      r.status = some s ∧ 200 ≤ s ∧ s < 300 :=
  helper_success_shape net endpoint portals [] [] [] hsuc

/-- Witness for C1 (amended) on closed inputs: a single portal answering with
status 200. -/
theorem progressiveFetch_accepts_any_2xx_witness :
    ∃ (portal : String) (r : Response) (s : Int),
      (progressiveFetch (fun _ => FetchOutcome.fetchResp ⟨some 200, 0⟩) "/" ["p1"]).1.portal =
        some portal ∧
      (progressiveFetch (fun _ => FetchOutcome.fetchResp ⟨some 200, 0⟩) "/" ["p1"]).1.response =
        some r ∧
      (fun _ => FetchOutcome.fetchResp ⟨some 200, 0⟩) (mkQuery portal "/") =
        FetchOutcome.fetchResp r ∧
      r.status = some s ∧ 200 ≤ s ∧ s < 300 :=
  progressiveFetch_accepts_any_2xx (fun _ => FetchOutcome.fetchResp ⟨some 200, 0⟩) "/"
    ["p1"] rfl

/-- C1 counterexample: for the caller-supplied verification function that
rejects every response, progressiveFetch still resolves with `success = true`
on the first 2xx response — the function never consults any verifier, so a
2xx status alone is sufficient, contradicting the claim as stated. -/
theorem progressiveFetch_no_verification_counterexample :
    ((progressiveFetch (fun _ => FetchOutcome.fetchResp ⟨some 200, 0⟩) "/" ["p1"]).1.success =
      true) ∧
    (∃ r, (progressiveFetch (fun _ => FetchOutcome.fetchResp ⟨some 200, 0⟩) "/"
      ["p1"]).1.response = some r ∧ (fun (_ : Response) => false) r = false) :=
  ⟨rfl, ⟨⟨some 200, 0⟩, rfl, rfl⟩⟩

/-- C4 (amended): portals are attempted strictly in the order supplied, each
failing portal (transport error, malformed response, or non-2xx status) is
appended to `portalsFailed` (and its response or error to `responsesFailed`,
and a log line naming it to `logs`) in attempt order; the first portal with a
2xx response resolves with `success = true`, that portal, the trail so far and
the not-yet-tried portals; if every portal fails the result has
`success = false`, all portals in the failed lists and in the final log entry,
and `remainingPortals = null` (not an empty list, which is what the original
claim said). -/
theorem progressiveFetch_contract (net : String → FetchOutcome) (endpoint : String) :
    (∀ portals : List String,
      (∀ p ∈ portals, failsUnder net endpoint p = true) →
      (progressiveFetch net endpoint portals).1 =
        ⟨false, none, none, portals, portals.map (failEntry net endpoint), none,
          portals.map (failLog net endpoint) ++ [LogEntry.allPortalsFailed portals]⟩) ∧
    (∀ (pre : List String) (portal : String) (rest : List String) (r : Response) (s : Int),
      (∀ p ∈ pre, failsUnder net endpoint p = true) →
      net (mkQuery portal endpoint) = FetchOutcome.fetchResp r →
      r.status = some s → 200 ≤ s → s < 300 →
      (progressiveFetch net endpoint (pre ++ portal :: rest)).1 =
        ⟨true, some portal, some r, pre, pre.map (failEntry net endpoint), some rest,
          pre.map (failLog net endpoint)⟩) := by
  constructor
  · intro portals hfail
    unfold progressiveFetch
    rw [helper_all_fail net endpoint portals [] [] [] hfail]
    simp
  · intro pre portal rest r s hfail hnet hst h200 h300
    unfold progressiveFetch
    rw [helper_first_success net endpoint pre portal rest [] [] [] r s hfail hnet hst
      h200 h300]
    simp

/-- The concrete fetch behaviour used by the closed-input witnesses: portal
`h3` answers 200, everything else is a transport error. -/
def netW : String → FetchOutcome := fun q =>
  if q = "https://h3/x" then FetchOutcome.fetchResp ⟨some 200, 5⟩
  else FetchOutcome.fetchErr 7

/-- Witness for C4 (amended) on closed inputs: two failing portals exhaust the
list; two failing portals followed by `h3` (status 200) and one untried portal
resolve successfully with the exact trail. -/
theorem progressiveFetch_contract_witness :
    (progressiveFetch netW "/x" ["h1", "h2"]).1 =
      ⟨false, none, none, ["h1", "h2"], (["h1", "h2"]).map (failEntry netW "/x"), none,
        (["h1", "h2"]).map (failLog netW "/x") ++
          [LogEntry.allPortalsFailed ["h1", "h2"]]⟩ ∧
    (progressiveFetch netW "/x" (["h1", "h2"] ++ "h3" :: ["h4"])).1 =
      ⟨true, some "h3", some ⟨some 200, 5⟩, ["h1", "h2"],
        (["h1", "h2"]).map (failEntry netW "/x"), some ["h4"],
        (["h1", "h2"]).map (failLog netW "/x")⟩ :=
  ⟨(progressiveFetch_contract netW "/x").1 ["h1", "h2"] (by decide),
   (progressiveFetch_contract netW "/x").2 ["h1", "h2"] "h3" ["h4"] ⟨some 200, 5⟩ 200
     (by decide) (by decide) rfl (by decide) (by decide)⟩

/-- C4 counterexample: when every portal fails, the result's
`remainingPortals` is `null` (`none`), not the empty list the claim
describes. -/
theorem progressiveFetch_null_remaining_counterexample :
    ((progressiveFetch (fun _ => FetchOutcome.fetchErr 0) "/" ["p1"]).1.success = false) ∧
    ((progressiveFetch (fun _ => FetchOutcome.fetchErr 0) "/" ["p1"]).1.remainingPortals =
      none) ∧
    ((progressiveFetch (fun _ => FetchOutcome.fetchErr 0) "/" ["p1"]).1.remainingPortals ≠
      some []) :=
  ⟨rfl, rfl, by decide⟩

/-- C9 (amended): progressiveFetch consumes the caller's portal array rather
than treating it as read-only: `shift()` removes each attempted portal from the
aliased array, so after the promise settles the caller's array holds exactly
the not-yet-attempted portals — the `remainingPortals` of a successful result,
or nothing at all after exhaustion. -/
theorem progressiveFetch_consumes_portals (net : String → FetchOutcome)
    (endpoint : String) (portals : List String) :
    (progressiveFetch net endpoint portals).2 =
      ((progressiveFetch net endpoint portals).1.remainingPortals).getD [] :=
  helper_final_array net endpoint portals [] [] []

/-- C9 counterexample: with two portals and an immediately successful first
portal, the caller's array after the call holds `["p2"]`, not the original
`["p1", "p2"]` — the host list is not read-only. -/
theorem progressiveFetch_mutation_counterexample :
    ((progressiveFetch (fun _ => FetchOutcome.fetchResp ⟨some 200, 0⟩) "/"
      ["p1", "p2"]).2 ≠ ["p1", "p2"]) ∧
    ((progressiveFetch (fun _ => FetchOutcome.fetchResp ⟨some 200, 0⟩) "/"
      ["p1", "p2"]).2 = ["p2"]) :=
  ⟨by decide, rfl⟩

/-! ## Skyfile path validation (src/unnamed/part_002) -/

/-- JavaScript `String.prototype.split(sep)` for a one-character separator, on
strings modelled as lists of characters: `"".split("/") = [""]`,
`"x/".split("/") = ["x", ""]`, `"a//b".split("/") = ["a", "", "b"]`. -/
def jsSplit (sep : Char) : List Char → List (List Char)
  | [] => [[]]
  | c :: cs =>
    if c = sep then [] :: jsSplit sep cs
    else
      match jsSplit sep cs with
      | [] => [[c]]
      | seg :: segs => (c :: seg) :: segs

/-- The per-segment loop of `validateSkyfilePath`: returns the first error
among the slash-separated path elements, checking "." then ".." then "". -/
def checkPathElems : List (List Char) → Option String
  | [] => none
  | seg :: segs =>
    if seg = ['.'] then some "path cannot have a . element"
    else if seg = ['.', '.'] then some "path cannot have a .. element"
    else if seg = [] then some "path cannot have an empty element, cannot contain //"
    else checkPathElems segs

/-- Embedding of `validateSkyfilePath(path)` from src/unnamed/part_002:
`none` means the path is valid, `some err` is the returned error string. -/
def validateSkyfilePath (path : List Char) : Option String :=
  if path = [] then some "path cannot be blank"
  else if path = ['.', '.'] then some "path cannot be .."
  else if path = ['.'] then some "path cannot be ."
  else if (['/'] : List Char).isPrefixOf path then
    some "metdata.Filename cannot start with /"
  else if (['.', '.', '/'] : List Char).isPrefixOf path then
    some "metdata.Filename cannot start with ../"
  else if (['.', '/'] : List Char).isPrefixOf path then
    some "metdata.Filename cannot start with ./"
  else checkPathElems (jsSplit '/' path)

theorem checkPathElems_none_iff : ∀ segs : List (List Char),
    checkPathElems segs = none ↔
      ∀ seg ∈ segs, seg ≠ [] ∧ seg ≠ ['.'] ∧ seg ≠ ['.', '.'] := by
  intro segs
  induction segs with
  | nil => simp [checkPathElems]
  | cons seg segs ih =>
    unfold checkPathElems
    split_ifs with h1 h2 h3
    · simp [h1]
    · simp [h2]
    · simp [h3]
    · simp only [List.mem_cons, ih]
      constructor
      · intro hall s hs
        rcases hs with hs | hs
        · subst hs
          exact ⟨h3, h1, h2⟩
        · exact hall s hs
      · intro hall s hs
        exact hall s (Or.inr hs)

/-- C8: `validateSkyfilePath(path)` returns `null` (valid) if and only if the
path is non-empty, is not exactly "." or "..", does not start with "/", "./"
or "../", and no slash-separated segment is empty, "." or ".."; on every other
string it returns an error value. -/
theorem validateSkyfilePath_spec (path : List Char) :
    validateSkyfilePath path = none ↔
      (path ≠ [] ∧ path ≠ ['.'] ∧ path ≠ ['.', '.'] ∧
       ¬ (['/'] : List Char).isPrefixOf path ∧
       ¬ (['.', '/'] : List Char).isPrefixOf path ∧
       ¬ (['.', '.', '/'] : List Char).isPrefixOf path ∧
       ∀ seg ∈ jsSplit '/' path, seg ≠ [] ∧ seg ≠ ['.'] ∧ seg ≠ ['.', '.']) := by
  unfold validateSkyfilePath
  split_ifs with h1 h2 h3 h4 h5 h6
  · simp [h1]
  · simp [h2]
  · simp [h3]
  · simp [h4]
  · simp [h5]
  · simp [h6]
  · simp [h1, h2, h3, h4, h5, h6, checkPathElems_none_iff]

/-- Witness for C8 on the spec's own test vectors: "test/subtrial.ext" is
valid (via the iff theorem), while "a/../b", "", "/x" and "x/" are all
rejected. -/
theorem validateSkyfilePath_spec_witness :
    validateSkyfilePath ("test/subtrial.ext").toList = none ∧
    validateSkyfilePath ("a/../b").toList ≠ none ∧
    validateSkyfilePath ("").toList ≠ none ∧
    validateSkyfilePath ("/x").toList ≠ none ∧
    validateSkyfilePath ("x/").toList ≠ none :=
  ⟨(validateSkyfilePath_spec _).mpr (by decide), by decide, by decide, by decide, by decide⟩

/-! ## Seed phrases (src/libs/libskynet/src/seed.ts and src/unnamed/part_001,
identical).  The dictionary and its unique-prefix length live in
`dictionary.js`, which is not part of the provided sources; they are taken as
parameters (`dict`, `pfxLen`), per the spec: words are matched by a fixed
unique prefix against a fixed dictionary. -/

/-- The inner bit loop of `seedWordsToSeed` for one word: processes the
`wordBits` bits of `word` from most significant down, or-ing each set bit into
`bytes[curByte]` at position `8 - curBit - 1` and advancing the cursor.  The
state is `(bytes, curByte, curBit)`. -/
def packBits : Nat → Nat → Bytes × Nat × Nat → Bytes × Nat × Nat
  | 0, _, st => st
  | n + 1, word, (bytes, curByte, curBit) =>
    let bytes2 :=
      if 0 < word &&& (1 <<< n) then
        bytes.set curByte ((bytes.getD curByte 0) ||| (1 <<< (8 - curBit - 1)))
      else bytes
    if 8 ≤ curBit + 1 then packBits n word (bytes2, curByte + 1, 0)
    else packBits n word (bytes2, curByte, curBit + 1)

/-- The dictionary scan of `seedWordsToSeed`: index of the first dictionary
word agreeing with `w` on the unique prefix (`-1`, i.e. `none`, if no match).
-/
def findWord (dict : List (List Char)) (pfxLen : Nat) (w : List Char) : Option Nat :=
  dict.findIdx? (fun d => decide (w.take pfxLen = d.take pfxLen))

/-- The word loop of `seedWordsToSeed`; `i` is the loop index (the final word,
`i = 12`, contributes 8 bits instead of 10).  The dynamic parts of the error
strings (`${seedWords[i]}`, `${i}`) are abstracted to a fixed message. -/
def seedWordsToSeedLoop (dict : List (List Char)) (pfxLen : Nat) :
    List (List Char) → Nat → Bytes × Nat × Nat → Except String (Bytes × Nat × Nat)
  | [], _, st => Except.ok st
  | w :: ws, i, st =>
    match findWord dict pfxLen w with
    | none => Except.error "word not found in dictionary"
    | some word =>
      seedWordsToSeedLoop dict pfxLen ws (i + 1) (packBits (if i = 12 then 8 else 10) word st)

/-- Embedding of `seedWordsToSeed(seedWords)`: 13 words packed into 16 bytes
(10 bits per word, 8 for the last).  The dynamic error text is abstracted. -/
def seedWordsToSeed (dict : List (List Char)) (pfxLen : Nat)
    (seedWords : List (List Char)) : Except String Bytes :=
  if seedWords.length ≠ 13 then
    Except.error "Seed words should have length 13"
  else
    match seedWordsToSeedLoop dict pfxLen seedWords 0 (List.replicate 16 0, 0, 0) with
    | Except.error e => Except.error e
    | Except.ok (bytes, _, _) => Except.ok bytes

/-- Embedding of `seedToChecksumWords(seed)`: hashes the seed and turns bits
[0,10) and [10,20) of the hash into two dictionary indices.  `dictionary[w]`
is `undefined` when `w` is out of range, modelled by `List.getElem?`; the hash
output is read with default 0 (the documented primitive always returns 64
bytes).  The statically-false `SEED_CHECKSUM_WORDS !== 2` linter check is dead
code and omitted. -/
def seedToChecksumWords (sha512 : Bytes → Bytes) (dict : List (List Char))
    (seed : Bytes) : Except String (Option (List Char) × Option (List Char)) :=
  if seed.length ≠ 16 then Except.error "seed has the wrong length"
  else
    let h := sha512 seed
    let word1 := ((h.getD 0 0) <<< 8 + h.getD 1 0) >>> 6
    let word2 := ((((h.getD 1 0) <<< 10) &&& 65535) + (h.getD 2 0) <<< 2) >>> 6
    Except.ok (dict[word1]?, dict[word2]?)

/-- Embedding of `validSeedPhrase(seedPhrase)` from
src/libs/libskynet/src/seed.ts (src/unnamed/part_001 is identical).  The outer
`Option` models a thrown exception: `prefix(x)` is `x.slice(0, P)`, which
throws a TypeError when `x` is `undefined` — either a missing checksum word
(`seedWordsAndChecksum[13]`/`[14]` past the end of the split) or an
out-of-range dictionary lookup.  JavaScript evaluates `prefix(checksumOne)`
before `prefix(checksumOneVerify)`, mirrored by the match order. -/
def validSeedPhrase (sha512 : Bytes → Bytes) (dict : List (List Char)) (pfxLen : Nat)
    (seedPhrase : List Char) : Option (Except String Bytes) :=
  let seedWordsAndChecksum := jsSplit ' ' seedPhrase
  let seedWords := seedWordsAndChecksum.take 13
  let checksumOne := seedWordsAndChecksum[13]?
  let checksumTwo := seedWordsAndChecksum[14]?
  match seedWordsToSeed dict pfxLen seedWords with
  | Except.error e => some (Except.error (addContextToErr e "unable to parse seed phrase"))
  | Except.ok seed =>
    match seedToChecksumWords sha512 dict seed with
    | Except.error e =>
      some (Except.error (addContextToErr e "could not compute checksum words"))
    | Except.ok (c1v, c2v) =>
      match checksumOne with
      | none => none
      | some c1 =>
        match c1v with
        | none => none
        | some c1verify =>
          if c1.take pfxLen ≠ c1verify.take pfxLen then
            some (Except.error "first checksum word is invalid")
          else
            match checksumTwo with
            | none => none
            | some c2 =>
              match c2v with
              | none => none
              | some c2verify =>
                if c2.take pfxLen ≠ c2verify.take pfxLen then
                  some (Except.error "second checksum word is invalid")
                else some (Except.ok seed)

theorem packBits_length : ∀ (n word : Nat) (st : Bytes × Nat × Nat),
    (packBits n word st).1.length = st.1.length := by
  intro n
  induction n with
  | zero =>
    intro word st
    rfl
  | succ n ih =>
    intro word st
    obtain ⟨bytes, curByte, curBit⟩ := st
    unfold packBits
    split_ifs with h1 h2 h3 <;> simp [ih]

theorem seedWordsToSeedLoop_length (dict : List (List Char)) (pfxLen : Nat) :
    ∀ (ws : List (List Char)) (i : Nat) (st r : Bytes × Nat × Nat),
    seedWordsToSeedLoop dict pfxLen ws i st = Except.ok r → r.1.length = st.1.length := by
  intro ws
  induction ws with
  | nil =>
    intro i st r h
    simp only [seedWordsToSeedLoop, Except.ok.injEq] at h
    rw [← h]
  | cons w ws ih =>
    intro i st r h
    unfold seedWordsToSeedLoop at h
    cases hf : findWord dict pfxLen w with
    | none => rw [hf] at h; exact absurd h (by simp)
    | some word =>
      rw [hf] at h
      have := ih (i + 1) (packBits (if i = 12 then 8 else 10) word st) r h
      rw [this, packBits_length]

theorem seedWordsToSeed_length (dict : List (List Char)) (pfxLen : Nat)
    (seedWords : List (List Char)) (bytes : Bytes)
    (h : seedWordsToSeed dict pfxLen seedWords = Except.ok bytes) : bytes.length = 16 := by
  unfold seedWordsToSeed at h
  by_cases h1 : seedWords.length ≠ 13
  · rw [if_pos h1] at h
    exact absurd h (by simp)
  · rw [if_neg h1] at h
    cases hl : seedWordsToSeedLoop dict pfxLen seedWords 0 (List.replicate 16 0, 0, 0) with
    | error e => rw [hl] at h; exact absurd h (by simp)
    | ok st =>
      rw [hl] at h
      obtain ⟨b2, cB, cb⟩ := st
      simp only [Except.ok.injEq] at h
      have := seedWordsToSeedLoop_length dict pfxLen seedWords 0 _ _ hl
      simp only at this
      rw [← h, this]
      simp

/-- C7 (code bug): `validSeedPhrase` is supposed to be total (return a seed or
a descriptive error for every input string and never throw), but on any phrase
that splits into exactly 13 words all matching the dictionary — a valid
entropy section whose two checksum words are simply missing —
`seedWordsAndChecksum[13]` is `undefined`, and `prefix(checksumOne)` throws a
TypeError (`undefined.slice`) instead of returning an error value. -/
theorem validSeedPhrase_throws (sha512 : Bytes → Bytes) (dict : List (List Char))
    (pfxLen : Nat) (seedPhrase : List Char) (bytes : Bytes)
    (hlen : (jsSplit ' ' seedPhrase).length = 13)
    (hwords : seedWordsToSeed dict pfxLen (jsSplit ' ' seedPhrase) = Except.ok bytes) :
    validSeedPhrase sha512 dict pfxLen seedPhrase = none := by
  have htake : (jsSplit ' ' seedPhrase).take 13 = jsSplit ' ' seedPhrase :=
    List.take_of_length_le (by omega)
  have hcs1 : (jsSplit ' ' seedPhrase)[13]? = none :=
    List.getElem?_eq_none (by omega)
  have hchk : seedToChecksumWords sha512 dict bytes =
      Except.ok (dict[(((sha512 bytes).getD 0 0) <<< 8 + (sha512 bytes).getD 1 0) >>> 6]?,
        dict[(((((sha512 bytes).getD 1 0) <<< 10) &&& 65535) +
          ((sha512 bytes).getD 2 0) <<< 2) >>> 6]?) := by
    unfold seedToChecksumWords
    rw [if_neg (by simp [seedWordsToSeed_length dict pfxLen _ _ hwords])]
  unfold validSeedPhrase
  simp only [htake, hwords, hchk, hcs1]

/-- Witness for C7 on closed inputs: with a one-word dictionary ["abc"],
prefix length 3, and the 13-word phrase "abc abc ... abc", `validSeedPhrase`
throws (evaluates to `none`) for a concrete hash function. -/
theorem validSeedPhrase_throws_witness :
    validSeedPhrase (fun _ => List.replicate 64 0) [("abc").toList] 3
      ("abc abc abc abc abc abc abc abc abc abc abc abc abc").toList = none :=
  validSeedPhrase_throws (fun _ => List.replicate 64 0) [("abc").toList] 3
    ("abc abc abc abc abc abc abc abc abc abc abc abc abc").toList
    (List.replicate 16 0) (by decide) rfl

end Skynet
